import Mathlib

/-!
Verification development for the cvkit lens-distortion module
(gmath/distortion.h).  The repository ships only the header, which declares
the distortion-model class hierarchy and documents the forward formulas of
each variant in its doc comments; the bodies of distortion.cc are modelled
from the specification where they are not available.  Coordinates (C++
double) are modelled as real numbers.
-/

namespace Cvkit

/-- Coordinate pairs (double, double) modelled as pairs of reals. -/
abbrev Vec2 := ℝ × ℝ

/-- The closed set of distortion models declared in gmath/distortion.h.
Constructors carry the parameters in the per-variant documented order:
radial stores k1,k2,k3 with configurable active order n; radial-tangential
stores p1,p2,k1,k2,k3; rational-tangential stores p1,p2,k1..k6; thin-prism
stores p1,p2,k1..k6,s1..s4; equidistant stores 4 coefficients. -/
inductive Distortion where
  | base
  | radial (n : ℕ) (k1 k2 k3 : ℝ)
  | radialTangential (n : ℕ) (p1 p2 k1 k2 k3 : ℝ)
  | rationalTangential (p1 p2 k1 k2 k3 k4 k5 k6 : ℝ)
  | thinPrism (p1 p2 k1 k2 k3 k4 k5 k6 s1 s2 s3 s4 : ℝ)
  | equidistant (e1 e2 e3 e4 : ℝ)

/-- Modelled from the spec: the forward transform bodies of distortion.cc are
not under src.  The polynomial variants follow the formulas documented in the
doc comments of gmath/distortion.h (lines 115-128, 153-166, 191-204,
228-241); the equidistant variant follows spec section 4.6, with the
polynomial correction in the square of the incidence angle continued to the
model's 4 stored coefficients. -/
noncomputable def transform : Distortion → Vec2 → Vec2
  | .base, p => p
  | .radial _ k1 k2 k3, (x, y) =>
      let r2 := x ^ 2 + y ^ 2
      let s := 1 + k1 * r2 + k2 * r2 ^ 2 + k3 * r2 ^ 3
      (x * s, y * s)
  | .radialTangential _ p1 p2 k1 k2 k3, (x, y) =>
      let r2 := x ^ 2 + y ^ 2
      let s := 1 + k1 * r2 + k2 * r2 ^ 2 + k3 * r2 ^ 3
      (x * s + 2 * p1 * x * y + p2 * (r2 + 2 * x ^ 2),
       y * s + p1 * (r2 + 2 * y ^ 2) + 2 * p2 * x * y)
  | .rationalTangential p1 p2 k1 k2 k3 k4 k5 k6, (x, y) =>
      let r2 := x ^ 2 + y ^ 2
      let s := (1 + k1 * r2 + k2 * r2 ^ 2 + k3 * r2 ^ 3) /
               (1 + k4 * r2 + k5 * r2 ^ 2 + k6 * r2 ^ 3)
      (x * s + 2 * p1 * x * y + p2 * (r2 + 2 * x ^ 2),
       y * s + p1 * (r2 + 2 * y ^ 2) + 2 * p2 * x * y)
  | .thinPrism p1 p2 k1 k2 k3 k4 k5 k6 s1 s2 s3 s4, (x, y) =>
      let r2 := x ^ 2 + y ^ 2
      let s := (1 + k1 * r2 + k2 * r2 ^ 2 + k3 * r2 ^ 3) /
               (1 + k4 * r2 + k5 * r2 ^ 2 + k6 * r2 ^ 3)
      (x * s + 2 * p1 * x * y + p2 * (r2 + 2 * x ^ 2) + s1 * r2 + s2 * r2 ^ 2,
       y * s + p1 * (r2 + 2 * y ^ 2) + 2 * p2 * x * y + s3 * r2 + s4 * r2 ^ 2)
  | .equidistant e1 e2 e3 e4, (x, y) =>
      let r := Real.sqrt (x ^ 2 + y ^ 2)
      if 0 < r then
        let th := Real.arctan r
        let rd := th * (1 + e1 * th ^ 2 + e2 * th ^ 4 + e3 * th ^ 6 + e4 * th ^ 8)
        (x * (rd / r), y * (rd / r))
      else (x, y)

/-- C4: the radial forward transform computes r2 = x^2 + y^2, the scale
s = 1 + k1 r2 + k2 r2^2 + k3 r2^3 (inactive coefficients being stored as
zero), and returns (x s, y s); and the documented example: order-1 radial
distortion with k1 = 1/10 maps (1, 0) to (11/10, 0). -/
theorem radial_transform_formula (n : ℕ) (k1 k2 k3 x y : ℝ) :
    transform (.radial n k1 k2 k3) (x, y) =
      (x * (1 + k1 * (x ^ 2 + y ^ 2) + k2 * (x ^ 2 + y ^ 2) ^ 2 +
            k3 * (x ^ 2 + y ^ 2) ^ 3),
       y * (1 + k1 * (x ^ 2 + y ^ 2) + k2 * (x ^ 2 + y ^ 2) ^ 2 +
            k3 * (x ^ 2 + y ^ 2) ^ 3)) ∧
    transform (.radial 1 (1 / 10) 0 0) ((1 : ℝ), 0) = (11 / 10, 0) := by
  constructor
  · rfl
  · simp only [transform]
    norm_num

/-- Number of tunable coefficients per variant (countParameter, int-valued):
0 for the base dummy, n for radial, n + 2 for radial-tangential, 8 for
rational-tangential, 12 for thin-prism, 4 for equidistant. -/
def countParameter : Distortion → ℤ
  | .base => 0
  | .radial n _ _ _ => (n : ℤ)
  | .radialTangential n _ _ _ _ _ => (n : ℤ) + 2
  | .rationalTangential _ _ _ _ _ _ _ _ => 8
  | .thinPrism _ _ _ _ _ _ _ _ _ _ _ _ => 12
  | .equidistant _ _ _ _ => 4

/-- Parameter values listed in the documented per-variant order (tangential
coefficients first where present, then radial numerator, then rational
denominator, then thin-prism coefficients). -/
def paramVal : Distortion → ℕ → ℝ
  | .base, _ => 0
  | .radial _ a b c, j => [a, b, c].getD j 0
  | .radialTangential _ p1 p2 a b c, j => [p1, p2, a, b, c].getD j 0
  | .rationalTangential p1 p2 a b c d e f, j =>
      [p1, p2, a, b, c, d, e, f].getD j 0
  | .thinPrism p1 p2 a b c d e f s1 s2 s3 s4, j =>
      [p1, p2, a, b, c, d, e, f, s1, s2, s3, s4].getD j 0
  | .equidistant a b c d, j => [a, b, c, d].getD j 0

/-- Error raised by an indexed parameter access outside the valid range. -/
inductive AccessError where
  | outOfBounds

/-- Modelled from the spec: the bodies of getParameter are not under src; the
spec makes an out-of-range index a contract violation that fails with a
bounds-violation error, never clamping. -/
def getParameter (m : Distortion) (i : ℤ) : Except AccessError ℝ :=
  if 0 ≤ i ∧ i < countParameter m then .ok (paramVal m i.toNat)
  else .error .outOfBounds

/-- Functional update of the j-th parameter, in the documented order. -/
def updateParam : Distortion → ℕ → ℝ → Distortion
  | .base, _, _ => .base
  | .radial n a b c, j, v =>
      .radial n (if j = 0 then v else a) (if j = 1 then v else b)
        (if j = 2 then v else c)
  | .radialTangential n p1 p2 a b c, j, v =>
      .radialTangential n (if j = 0 then v else p1) (if j = 1 then v else p2)
        (if j = 2 then v else a) (if j = 3 then v else b)
        (if j = 4 then v else c)
  | .rationalTangential p1 p2 a b c d e f, j, v =>
      .rationalTangential (if j = 0 then v else p1) (if j = 1 then v else p2)
        (if j = 2 then v else a) (if j = 3 then v else b)
        (if j = 4 then v else c) (if j = 5 then v else d)
        (if j = 6 then v else e) (if j = 7 then v else f)
  | .thinPrism p1 p2 a b c d e f s1 s2 s3 s4, j, v =>
      .thinPrism (if j = 0 then v else p1) (if j = 1 then v else p2)
        (if j = 2 then v else a) (if j = 3 then v else b)
        (if j = 4 then v else c) (if j = 5 then v else d)
        (if j = 6 then v else e) (if j = 7 then v else f)
        (if j = 8 then v else s1) (if j = 9 then v else s2)
        (if j = 10 then v else s3) (if j = 11 then v else s4)
  | .equidistant a b c d, j, v =>
      .equidistant (if j = 0 then v else a) (if j = 1 then v else b)
        (if j = 2 then v else c) (if j = 3 then v else d)

/-- Modelled from the spec: setParameter with the same index contract as
getParameter. -/
def setParameter (m : Distortion) (i : ℤ) (v : ℝ) : Except AccessError Distortion :=
  if 0 ≤ i ∧ i < countParameter m then .ok (updateParam m i.toNat v)
  else .error .outOfBounds

/-- C5: the thin-prism model has exactly 12 parameters, exposed through
getParameter in the order p1, p2, k1..k6, s1..s4, and its forward transform
uses the rational radial scale together with the tangential and thin-prism
terms in the documented roles. -/
theorem thinPrism_parameters_and_formula
    (p1 p2 k1 k2 k3 k4 k5 k6 s1 s2 s3 s4 x y : ℝ) :
    countParameter (.thinPrism p1 p2 k1 k2 k3 k4 k5 k6 s1 s2 s3 s4) = 12 ∧
    getParameter (.thinPrism p1 p2 k1 k2 k3 k4 k5 k6 s1 s2 s3 s4) 0 = .ok p1 ∧
    getParameter (.thinPrism p1 p2 k1 k2 k3 k4 k5 k6 s1 s2 s3 s4) 1 = .ok p2 ∧
    getParameter (.thinPrism p1 p2 k1 k2 k3 k4 k5 k6 s1 s2 s3 s4) 2 = .ok k1 ∧
    getParameter (.thinPrism p1 p2 k1 k2 k3 k4 k5 k6 s1 s2 s3 s4) 3 = .ok k2 ∧
    getParameter (.thinPrism p1 p2 k1 k2 k3 k4 k5 k6 s1 s2 s3 s4) 4 = .ok k3 ∧
    getParameter (.thinPrism p1 p2 k1 k2 k3 k4 k5 k6 s1 s2 s3 s4) 5 = .ok k4 ∧
    getParameter (.thinPrism p1 p2 k1 k2 k3 k4 k5 k6 s1 s2 s3 s4) 6 = .ok k5 ∧
    getParameter (.thinPrism p1 p2 k1 k2 k3 k4 k5 k6 s1 s2 s3 s4) 7 = .ok k6 ∧
    getParameter (.thinPrism p1 p2 k1 k2 k3 k4 k5 k6 s1 s2 s3 s4) 8 = .ok s1 ∧
    getParameter (.thinPrism p1 p2 k1 k2 k3 k4 k5 k6 s1 s2 s3 s4) 9 = .ok s2 ∧
    getParameter (.thinPrism p1 p2 k1 k2 k3 k4 k5 k6 s1 s2 s3 s4) 10 = .ok s3 ∧
    getParameter (.thinPrism p1 p2 k1 k2 k3 k4 k5 k6 s1 s2 s3 s4) 11 = .ok s4 ∧
    transform (.thinPrism p1 p2 k1 k2 k3 k4 k5 k6 s1 s2 s3 s4) (x, y) =
      (x * ((1 + k1 * (x ^ 2 + y ^ 2) + k2 * (x ^ 2 + y ^ 2) ^ 2 +
             k3 * (x ^ 2 + y ^ 2) ^ 3) /
            (1 + k4 * (x ^ 2 + y ^ 2) + k5 * (x ^ 2 + y ^ 2) ^ 2 +
             k6 * (x ^ 2 + y ^ 2) ^ 3)) +
         2 * p1 * x * y + p2 * ((x ^ 2 + y ^ 2) + 2 * x ^ 2) +
         s1 * (x ^ 2 + y ^ 2) + s2 * (x ^ 2 + y ^ 2) ^ 2,
       y * ((1 + k1 * (x ^ 2 + y ^ 2) + k2 * (x ^ 2 + y ^ 2) ^ 2 +
             k3 * (x ^ 2 + y ^ 2) ^ 3) /
            (1 + k4 * (x ^ 2 + y ^ 2) + k5 * (x ^ 2 + y ^ 2) ^ 2 +
             k6 * (x ^ 2 + y ^ 2) ^ 3)) +
         p1 * ((x ^ 2 + y ^ 2) + 2 * y ^ 2) + 2 * p2 * x * y +
         s3 * (x ^ 2 + y ^ 2) + s4 * (x ^ 2 + y ^ 2) ^ 2) := by
  refine ⟨rfl, rfl, rfl, rfl, rfl, rfl, rfl, rfl, rfl, rfl, rfl, rfl, rfl, rfl⟩

/-- C3 counterexample: the equidistant variant with all four coefficients at
zero is not the identity: it sends (1, 0) to (arctan 1, 0) = (pi/4, 0). -/
theorem equidistant_not_identity_at_zero :
    transform (.equidistant 0 0 0 0) ((1 : ℝ), 0) ≠ (1, 0) := by
  have h1 : Real.sqrt ((1 : ℝ) ^ 2 + 0 ^ 2) = 1 := by
    norm_num
  intro h
  have h2 : transform (.equidistant 0 0 0 0) ((1 : ℝ), 0) =
      (Real.arctan 1, 0) := by
    simp only [transform, h1]
    norm_num
  rw [h2] at h
  have h3 : Real.arctan 1 = 1 := congrArg Prod.fst h
  have h4 : Real.arctan 1 = Real.pi / 4 := Real.arctan_one
  have h5 : Real.pi < 3.15 := Real.pi_lt_d2
  rw [h4] at h3
  linarith

/-- C3 amended: with all parameters at zero, the base model and the four
polynomial variants are the identity transform; the equidistant variant is
excluded (see the counterexample: its zero-parameter map rescales the radius
to the incidence angle). -/
theorem transform_identity_at_zero_params (n m : ℕ) (x y : ℝ) :
    transform .base (x, y) = (x, y) ∧
    transform (.radial n 0 0 0) (x, y) = (x, y) ∧
    transform (.radialTangential m 0 0 0 0 0) (x, y) = (x, y) ∧
    transform (.rationalTangential 0 0 0 0 0 0 0 0) (x, y) = (x, y) ∧
    transform (.thinPrism 0 0 0 0 0 0 0 0 0 0 0 0) (x, y) = (x, y) := by
  refine ⟨rfl, ?_, ?_, ?_, ?_⟩ <;> (simp only [transform]; norm_num)

/-- Residual of the estimate e against the observed distorted coordinate t:
the observed coordinate minus the forward transform of the estimate. -/
noncomputable def residFun (f : Vec2 → Vec2) (t e : Vec2) : Vec2 :=
  (t.1 - (f e).1, t.2 - (f e).2)

/-- Magnitude of a residual, measured componentwise (sup norm), matching the
componentwise absolute-tolerance test of the iteration. -/
noncomputable def resNorm (v : Vec2) : ℝ := max |v.1| |v.2|

/-- First-order correction step of the inverse iteration: add the residual
to the current estimate. -/
noncomputable def corrStep (f : Vec2 → Vec2) (t e : Vec2) : Vec2 :=
  (e.1 + (residFun f t e).1, e.2 + (residFun f t e).2)

/-- Modelled from the spec: the fixed absolute tolerance of the shared
inverse iteration (distortion.cc is not under src; the spec fixes only that
the tolerance is a small absolute constant in coordinate-space units). -/
noncomputable def tol : ℝ := 1 / 1000000

/-- Modelled from the spec: the fixed iteration cap of the shared inverse
iteration (bounded, on the order of tens of iterations). -/
def maxIter : ℕ := 50

/-- Modelled from the spec: the shared bounded fixed-point loop used by every
variant's invTransform.  Each pass applies the forward transform to the
current estimate, corrects the estimate by the residual, and stops as soon
as the residual magnitude falls below the tolerance or the budget runs out;
the last estimate is returned in every case. -/
noncomputable def invIterAux (f : Vec2 → Vec2) (t : Vec2) : ℕ → Vec2 → Vec2
  | 0, e => e
  | n + 1, e =>
      if resNorm (residFun f t e) < tol then corrStep f t e
      else invIterAux f t n (corrStep f t e)

/-- Modelled from the spec: invTransform initializes the estimate to the
distorted coordinate itself and runs the shared bounded iteration against
the variant's own forward transform. -/
noncomputable def invTransform (d : Distortion) (td : Vec2) : Vec2 :=
  invIterAux (transform d) td maxIter td

/-- Sup-norm distance between two coordinate pairs. -/
noncomputable def sdist (p q : Vec2) : ℝ := max |p.1 - q.1| |p.2 - q.2|

theorem sdist_nonneg (p q : Vec2) : 0 ≤ sdist p q :=
  le_max_of_le_left (abs_nonneg _)

theorem sdist_comm (p q : Vec2) : sdist p q = sdist q p := by
  simp only [sdist, abs_sub_comm]

/-- Full unfolding characterisation of the bounded loop: either the residual
first fell below the tolerance after some j < n correction steps and the
loop answered with the (j+1)-st corrected estimate, or the budget n was
exhausted with every tested residual at or above the tolerance and the loop
answered with the n-th corrected estimate. -/
theorem invIterAux_char (f : Vec2 → Vec2) (t : Vec2) :
    ∀ (n : ℕ) (e : Vec2),
      (∃ j < n,
        (∀ i < j, tol ≤ resNorm (residFun f t ((corrStep f t)^[i] e))) ∧
        resNorm (residFun f t ((corrStep f t)^[j] e)) < tol ∧
        invIterAux f t n e = (corrStep f t)^[j + 1] e) ∨
      ((∀ i < n, tol ≤ resNorm (residFun f t ((corrStep f t)^[i] e))) ∧
        invIterAux f t n e = (corrStep f t)^[n] e) := by
  intro n
  induction n with
  | zero =>
      intro e
      exact Or.inr ⟨fun i hi => absurd hi (Nat.not_lt_zero i), rfl⟩
  | succ n ih =>
      intro e
      by_cases h : resNorm (residFun f t e) < tol
      · refine Or.inl ⟨0, Nat.succ_pos n,
          fun i hi => absurd hi (Nat.not_lt_zero i), ?_, ?_⟩
        · simpa using h
        · simp [invIterAux, if_pos h]
      · have hstep : invIterAux f t (n + 1) e =
            invIterAux f t n (corrStep f t e) := by
          simp [invIterAux, if_neg h]
        rcases ih (corrStep f t e) with
          ⟨j, hj, hmin, hres, heq⟩ | ⟨hall, heq⟩
        · refine Or.inl ⟨j + 1, by omega, ?_, ?_, ?_⟩
          · intro i hi
            cases i with
            | zero => simpa using not_lt.mp h
            | succ i =>
                rw [Function.iterate_succ_apply]
                exact hmin i (by omega)
          · rw [Function.iterate_succ_apply]
            exact hres
          · rw [hstep, heq, ← Function.iterate_succ_apply]
        · refine Or.inr ⟨?_, ?_⟩
          · intro i hi
            cases i with
            | zero => simpa using not_lt.mp h
            | succ i =>
                rw [Function.iterate_succ_apply]
                exact hall i (by omega)
          · rw [hstep, heq, ← Function.iterate_succ_apply]

/-- The bounded loop always answers with a k-fold correction of its initial
estimate, for some k at most the budget. -/
theorem invIterAux_eq_iterate (f : Vec2 → Vec2) (t : Vec2) :
    ∀ (n : ℕ) (e : Vec2), ∃ k ≤ n, invIterAux f t n e = (corrStep f t)^[k] e := by
  intro n
  induction n with
  | zero => exact fun e => ⟨0, le_rfl, rfl⟩
  | succ n ih =>
      intro e
      by_cases h : resNorm (residFun f t e) < tol
      · exact ⟨1, by omega, by simp [invIterAux, if_pos h]⟩
      · obtain ⟨k, hk, heq⟩ := ih (corrStep f t e)
        refine ⟨k + 1, by omega, ?_⟩
        rw [Function.iterate_succ_apply, ← heq]
        simp [invIterAux, if_neg h]

/-- If the residual already vanishes at the initial estimate, the loop
returns that estimate unchanged. -/
theorem invIterAux_of_resid_zero (f : Vec2 → Vec2) (t : Vec2) (n : ℕ) (e : Vec2)
    (h : residFun f t e = (0, 0)) : invIterAux f t n e = e := by
  cases n with
  | zero => rfl
  | succ n =>
      have hstop : resNorm (residFun f t e) < tol := by
        rw [h]
        simp only [resNorm, tol]
        norm_num
      have hcs : corrStep f t e = e := by
        simp [corrStep, h]
      simp [invIterAux, if_pos hstop, hcs]

/-- C1: for every variant, invTransform runs the one shared bounded
fixed-point iteration: the estimate starts at the distorted coordinate td,
each step adds the residual of the forward transform to the estimate, the
loop stops as soon as the residual magnitude drops below the fixed tolerance
or after maxIter steps, whichever comes first, and the last estimate is
returned in every case (the function is total and never reports failure). -/
theorem invTransform_is_bounded_fixed_point_iteration (d : Distortion) (td : Vec2) :
    (∃ j < maxIter,
      (∀ i < j, tol ≤ resNorm (residFun (transform d) td
        ((corrStep (transform d) td)^[i] td))) ∧
      resNorm (residFun (transform d) td
        ((corrStep (transform d) td)^[j] td)) < tol ∧
      invTransform d td = (corrStep (transform d) td)^[j + 1] td) ∨
    ((∀ i < maxIter, tol ≤ resNorm (residFun (transform d) td
        ((corrStep (transform d) td)^[i] td))) ∧
      invTransform d td = (corrStep (transform d) td)^[maxIter] td) :=
  invIterAux_char (transform d) td maxIter td

/-- C7: the equidistant model fixes the origin: transform (0,0) = (0,0)
directly through the degenerate r = 0 branch, and the inverse iteration on
(0,0) stops at once with residual zero and returns (0,0), for any values of
the four coefficients. -/
theorem equidistant_origin_fixed (e1 e2 e3 e4 : ℝ) :
    transform (.equidistant e1 e2 e3 e4) (0, 0) = (0, 0) ∧
    invTransform (.equidistant e1 e2 e3 e4) (0, 0) = (0, 0) := by
  have ht : transform (.equidistant e1 e2 e3 e4) ((0 : ℝ), (0 : ℝ)) = (0, 0) := by
    simp [transform]
  refine ⟨ht, ?_⟩
  have hres : residFun (transform (.equidistant e1 e2 e3 e4)) ((0 : ℝ), (0 : ℝ))
      ((0 : ℝ), (0 : ℝ)) = (0, 0) := by
    simp only [residFun, ht]
    norm_num
  exact invIterAux_of_resid_zero _ _ _ _ hres

/-- Distortion part of a coordinate map: the map minus the identity,
componentwise. -/
noncomputable def gPart (f : Vec2 → Vec2) (q : Vec2) : Vec2 :=
  ((f q).1 - q.1, (f q).2 - q.2)

/-- Distortion part of a model's forward transform. -/
noncomputable def distortionPart (m : Distortion) : Vec2 → Vec2 :=
  gPart (transform m)

/-- When the target is the forward image of p, the corrected estimate moves
to p plus the difference of distortion parts. -/
theorem corrStep_sub (f : Vec2 → Vec2) (p e : Vec2) :
    sdist (corrStep f (f p) e) p = sdist (gPart f p) (gPart f e) := by
  have h1 : e.1 + (residFun f (f p) e).1 - p.1 =
      (gPart f p).1 - (gPart f e).1 := by
    simp only [residFun, gPart]
    ring
  have h2 : e.2 + (residFun f (f p) e).2 - p.2 =
      (gPart f p).2 - (gPart f e).2 := by
    simp only [residFun, gPart]
    ring
  simp only [sdist, corrStep, h1, h2]

/-- Reverse-triangle bound relating the estimate's error to the residual:
when the distortion parts move points at most half as far apart as the
points themselves, the distance to the true point is at most twice the
residual magnitude. -/
theorem sdist_le_two_resNorm (f : Vec2 → Vec2) (p e : Vec2)
    (hg : sdist (gPart f p) (gPart f e) ≤ (1 / 2) * sdist e p) :
    sdist e p ≤ 2 * resNorm (residFun f (f p) e) := by
  have hr1 : (residFun f (f p) e).1 =
      (p.1 - e.1) + ((gPart f p).1 - (gPart f e).1) := by
    simp only [residFun, gPart]
    ring
  have hr2 : (residFun f (f p) e).2 =
      (p.2 - e.2) + ((gPart f p).2 - (gPart f e).2) := by
    simp only [residFun, gPart]
    ring
  have hg1 : |(gPart f p).1 - (gPart f e).1| ≤ (1 / 2) * sdist e p :=
    le_trans (le_max_left _ _) hg
  have hg2 : |(gPart f p).2 - (gPart f e).2| ≤ (1 / 2) * sdist e p :=
    le_trans (le_max_right _ _) hg
  rcases max_cases |e.1 - p.1| |e.2 - p.2| with ⟨hM, _⟩ | ⟨hM, _⟩
  · have hM2 : sdist e p = |e.1 - p.1| := hM
    have htri : |p.1 - e.1| - |(gPart f p).1 - (gPart f e).1| ≤
        |(residFun f (f p) e).1| := by
      have := abs_add ((residFun f (f p) e).1)
        (-((gPart f p).1 - (gPart f e).1))
      rw [hr1] at this ⊢
      simp only [abs_neg] at this
      have heq : p.1 - e.1 + ((gPart f p).1 - (gPart f e).1) +
          -((gPart f p).1 - (gPart f e).1) = p.1 - e.1 := by ring
      rw [heq] at this
      linarith
    have hle : |(residFun f (f p) e).1| ≤ resNorm (residFun f (f p) e) :=
      le_max_left _ _
    have habs : |p.1 - e.1| = |e.1 - p.1| := abs_sub_comm _ _
    rw [hM2]
    rw [habs] at htri
    rw [hM2] at hg1
    linarith
  · have hM2 : sdist e p = |e.2 - p.2| := hM
    have htri : |p.2 - e.2| - |(gPart f p).2 - (gPart f e).2| ≤
        |(residFun f (f p) e).2| := by
      have := abs_add ((residFun f (f p) e).2)
        (-((gPart f p).2 - (gPart f e).2))
      rw [hr2] at this ⊢
      simp only [abs_neg] at this
      have heq : p.2 - e.2 + ((gPart f p).2 - (gPart f e).2) +
          -((gPart f p).2 - (gPart f e).2) = p.2 - e.2 := by ring
      rw [heq] at this
      linarith
    have hle : |(residFun f (f p) e).2| ≤ resNorm (residFun f (f p) e) :=
      le_max_right _ _
    have habs : |p.2 - e.2| = |e.2 - p.2| := abs_sub_comm _ _
    rw [hM2]
    rw [habs] at htri
    rw [hM2] at hg2
    linarith

/-- Convergence of the bounded loop under a (1/2)-Lipschitz distortion part:
starting anywhere in the ball around the true point whose radius is the
initial displacement, after n passes the error is below the tolerance or has
been halved n times. -/
theorem invIterAux_converges (f : Vec2 → Vec2) (p : Vec2)
    (hL : ∀ q r : Vec2, sdist q p ≤ sdist (f p) p → sdist r p ≤ sdist (f p) p →
      sdist (gPart f q) (gPart f r) ≤ (1 / 2) * sdist q r) :
    ∀ (n : ℕ) (e : Vec2), sdist e p ≤ sdist (f p) p →
      sdist (invIterAux f (f p) n e) p ≤ max tol ((1 / 2) ^ n * sdist e p) := by
  intro n
  induction n with
  | zero =>
      intro e he
      have : ((1 : ℝ) / 2) ^ 0 * sdist e p = sdist e p := by norm_num
      rw [this]
      exact le_max_right _ _
  | succ n ih =>
      intro e he
      have hpp : sdist p p ≤ sdist (f p) p := by
        have : sdist p p = 0 := by simp [sdist]
        rw [this]
        exact sdist_nonneg _ _
      have hgpe : sdist (gPart f p) (gPart f e) ≤ (1 / 2) * sdist e p := by
        have := hL p e hpp he
        rwa [sdist_comm p e] at this
      have hstep : sdist (corrStep f (f p) e) p ≤ (1 / 2) * sdist e p := by
        rw [corrStep_sub]
        exact hgpe
      by_cases h : resNorm (residFun f (f p) e) < tol
      · have hm : sdist e p ≤ 2 * resNorm (residFun f (f p) e) :=
          sdist_le_two_resNorm f p e hgpe
        have hlt : sdist (corrStep f (f p) e) p ≤ tol := by
          have : sdist (corrStep f (f p) e) p ≤
              resNorm (residFun f (f p) e) := by linarith
          linarith
        have heq : invIterAux f (f p) (n + 1) e = corrStep f (f p) e := by
          simp [invIterAux, if_pos h]
        rw [heq]
        exact le_max_of_le_left hlt
      · have he2 : sdist (corrStep f (f p) e) p ≤ sdist (f p) p := by
          have h0 := sdist_nonneg e p
          calc sdist (corrStep f (f p) e) p ≤ (1 / 2) * sdist e p := hstep
            _ ≤ sdist e p := by linarith
            _ ≤ sdist (f p) p := he
        have hrec := ih (corrStep f (f p) e) he2
        have heq : invIterAux f (f p) (n + 1) e =
            invIterAux f (f p) n (corrStep f (f p) e) := by
          simp [invIterAux, if_neg h]
        rw [heq]
        refine le_trans hrec (max_le_max le_rfl ?_)
        have hpow : (0 : ℝ) ≤ (1 / 2) ^ n := by positivity
        calc ((1 : ℝ) / 2) ^ n * sdist (corrStep f (f p) e) p
            ≤ (1 / 2) ^ n * ((1 / 2) * sdist e p) :=
              mul_le_mul_of_nonneg_left hstep hpow
          _ = (1 / 2) ^ (n + 1) * sdist e p := by ring

/-- C2 amended: for every variant and every parameter set and point for
which the distortion part of the forward map is a (1/2)-Lipschitz
perturbation on the sup-norm ball around the ideal point of radius equal to
its initial displacement, with that displacement at most 1 (true of
representative parameter sets within typical calibration ranges, see the
witness), the inverse iteration reproduces the ideal point from its
distorted image within the fixed tolerance. -/
theorem roundtrip_within_tol_of_contraction (m : Distortion) (x y : ℝ)
    (_hx : |x| < 1) (_hy : |y| < 1)
    (hL : ∀ q r : Vec2, sdist q (x, y) ≤ sdist (transform m (x, y)) (x, y) →
      sdist r (x, y) ≤ sdist (transform m (x, y)) (x, y) →
      sdist (distortionPart m q) (distortionPart m r) ≤ (1 / 2) * sdist q r)
    (hB : sdist (transform m (x, y)) (x, y) ≤ 1) :
    sdist (invTransform m (transform m (x, y))) (x, y) ≤ tol := by
  have h := invIterAux_converges (transform m) (x, y) hL maxIter
    (transform m (x, y)) le_rfl
  refine le_trans h (max_le le_rfl ?_)
  have hpow : (0 : ℝ) ≤ (1 / 2) ^ maxIter := by positivity
  calc ((1 : ℝ) / 2) ^ maxIter * sdist (transform m (x, y)) (x, y)
      ≤ (1 / 2) ^ maxIter * 1 := mul_le_mul_of_nonneg_left hB hpow
    _ ≤ tol := by
        rw [maxIter, tol]
        norm_num

/-- Forward image under the representative small radial model (k1 = 1/20) of
the point (1/2, 1/2): the initial displacement of the inverse iteration is
exactly 1/80. -/
theorem radialSmall_displacement :
    sdist (transform (.radial 1 (1 / 20) 0 0) ((1 : ℝ) / 2, 1 / 2))
      ((1 : ℝ) / 2, 1 / 2) = 1 / 80 := by
  have h : transform (.radial 1 (1 / 20) 0 0) ((1 : ℝ) / 2, 1 / 2) =
      ((41 : ℝ) / 80, 41 / 80) := by
    simp only [transform]
    norm_num
  rw [h]
  simp only [sdist]
  rw [show (41 : ℝ) / 80 - 1 / 2 = 1 / 80 by norm_num]
  rw [abs_of_nonneg (by norm_num : (0 : ℝ) ≤ 1 / 80)]
  simp

/-- Componentwise Lipschitz bound for the distortion part of the small
radial model on the 1/80-ball around (1/2, 1/2). -/
theorem radial_comp_bound (a b c d : ℝ)
    (ha : |a - 1 / 2| ≤ 1 / 80) (hb : |b - 1 / 2| ≤ 1 / 80)
    (hc : |c - 1 / 2| ≤ 1 / 80) (hd : |d - 1 / 2| ≤ 1 / 80) :
    |(1 / 20) * (a ^ 2 + b ^ 2) * a - (1 / 20) * (c ^ 2 + d ^ 2) * c| ≤
      (1 / 2) * max |a - c| |b - d| := by
  obtain ⟨ha1, ha2⟩ := abs_le.mp ha
  obtain ⟨hb1, hb2⟩ := abs_le.mp hb
  obtain ⟨hc1, hc2⟩ := abs_le.mp hc
  obtain ⟨hd1, hd2⟩ := abs_le.mp hd
  have hM1 : |a - c| ≤ max |a - c| |b - d| := le_max_left _ _
  have hM2 : |b - d| ≤ max |a - c| |b - d| := le_max_right _ _
  have hM0 : (0 : ℝ) ≤ max |a - c| |b - d| :=
    le_trans (abs_nonneg _) hM1
  have key : (1 / 20) * (a ^ 2 + b ^ 2) * a - (1 / 20) * (c ^ 2 + d ^ 2) * c =
      (1 / 20) * ((a - c) * (a ^ 2 + a * c + c ^ 2 + b ^ 2) +
        (c * (b + d)) * (b - d)) := by ring
  rw [key, abs_mul, abs_of_nonneg (show (0 : ℝ) ≤ 1 / 20 by norm_num)]
  have hA : |a ^ 2 + a * c + c ^ 2 + b ^ 2| ≤ 17 / 16 := by
    rw [abs_le]
    constructor
    · nlinarith
    · nlinarith
  have hB : |c * (b + d)| ≤ 1681 / 3200 := by
    rw [abs_le]
    constructor
    · nlinarith
    · nlinarith
  have hsum : |(a - c) * (a ^ 2 + a * c + c ^ 2 + b ^ 2) +
      (c * (b + d)) * (b - d)| ≤
      max |a - c| |b - d| * (17 / 16) + (1681 / 3200) * max |a - c| |b - d| := by
    calc |(a - c) * (a ^ 2 + a * c + c ^ 2 + b ^ 2) + (c * (b + d)) * (b - d)|
        ≤ |(a - c) * (a ^ 2 + a * c + c ^ 2 + b ^ 2)| +
          |(c * (b + d)) * (b - d)| := abs_add _ _
      _ = |a - c| * |a ^ 2 + a * c + c ^ 2 + b ^ 2| +
          |c * (b + d)| * |b - d| := by rw [abs_mul, abs_mul]
      _ ≤ max |a - c| |b - d| * (17 / 16) +
          (1681 / 3200) * max |a - c| |b - d| := by
            apply add_le_add
            · exact mul_le_mul hM1 hA (abs_nonneg _) hM0
            · exact mul_le_mul hB hM2 (abs_nonneg _) (by norm_num)
  calc (1 / 20) * |(a - c) * (a ^ 2 + a * c + c ^ 2 + b ^ 2) +
        (c * (b + d)) * (b - d)|
      ≤ (1 / 20) * (max |a - c| |b - d| * (17 / 16) +
        (1681 / 3200) * max |a - c| |b - d|) := by linarith
    _ ≤ (1 / 2) * max |a - c| |b - d| := by linarith

/-- The distortion part of the small radial model, in closed form. -/
theorem radialSmall_gPart (u v : ℝ) :
    distortionPart (.radial 1 (1 / 20) 0 0) (u, v) =
      ((1 / 20) * (u ^ 2 + v ^ 2) * u, (1 / 20) * (u ^ 2 + v ^ 2) * v) := by
  simp only [distortionPart, gPart, transform, Prod.mk.injEq]
  constructor <;> ring

/-- Lipschitz hypothesis of the round-trip theorem, discharged for the
representative small radial model at the point (1/2, 1/2). -/
theorem radialSmall_lipschitz :
    ∀ q r : Vec2,
      sdist q ((1 : ℝ) / 2, (1 : ℝ) / 2) ≤
        sdist (transform (.radial 1 (1 / 20) 0 0) ((1 : ℝ) / 2, 1 / 2))
          ((1 : ℝ) / 2, 1 / 2) →
      sdist r ((1 : ℝ) / 2, (1 : ℝ) / 2) ≤
        sdist (transform (.radial 1 (1 / 20) 0 0) ((1 : ℝ) / 2, 1 / 2))
          ((1 : ℝ) / 2, 1 / 2) →
      sdist (distortionPart (.radial 1 (1 / 20) 0 0) q)
        (distortionPart (.radial 1 (1 / 20) 0 0) r) ≤ (1 / 2) * sdist q r := by
  intro q r hq hr
  rw [radialSmall_displacement] at hq hr
  obtain ⟨a, b⟩ := q
  obtain ⟨c, d⟩ := r
  simp only [sdist] at hq hr
  have ha : |a - 1 / 2| ≤ 1 / 80 := le_trans (le_max_left _ _) hq
  have hb : |b - 1 / 2| ≤ 1 / 80 := le_trans (le_max_right _ _) hq
  have hc : |c - 1 / 2| ≤ 1 / 80 := le_trans (le_max_left _ _) hr
  have hd : |d - 1 / 2| ≤ 1 / 80 := le_trans (le_max_right _ _) hr
  rw [radialSmall_gPart a b, radialSmall_gPart c d]
  simp only [sdist]
  apply max_le
  · exact radial_comp_bound a b c d ha hb hc hd
  · have hswap : (1 / 20 : ℝ) * (a ^ 2 + b ^ 2) * b -
        (1 / 20) * (c ^ 2 + d ^ 2) * d =
        (1 / 20) * (b ^ 2 + a ^ 2) * b - (1 / 20) * (d ^ 2 + c ^ 2) * d := by
      ring
    rw [hswap]
    have h := radial_comp_bound b a d c hb ha hd hc
    rwa [max_comm |b - d| |a - c|] at h

/-- Witness for the round-trip theorem: the representative small radial
model (order 1, k1 = 1/20) at the point (1/2, 1/2) satisfies its hypotheses,
and the inverse of the forward image lands within the tolerance. -/
theorem roundtrip_within_tol_witness :
    |((1 : ℝ) / 2)| < 1 ∧
    sdist (transform (.radial 1 (1 / 20) 0 0) ((1 : ℝ) / 2, 1 / 2))
      ((1 : ℝ) / 2, 1 / 2) ≤ 1 ∧
    sdist (invTransform (.radial 1 (1 / 20) 0 0)
        (transform (.radial 1 (1 / 20) 0 0) ((1 : ℝ) / 2, 1 / 2)))
      ((1 : ℝ) / 2, 1 / 2) ≤ tol := by
  have hB : sdist (transform (.radial 1 (1 / 20) 0 0) ((1 : ℝ) / 2, 1 / 2))
      ((1 : ℝ) / 2, 1 / 2) ≤ 1 := by
    rw [radialSmall_displacement]
    norm_num
  have hhalf : |((1 : ℝ) / 2)| < 1 := by
    rw [abs_of_nonneg (by norm_num : (0 : ℝ) ≤ 1 / 2)]
    norm_num
  refine ⟨hhalf, hB, ?_⟩
  exact roundtrip_within_tol_of_contraction (.radial 1 (1 / 20) 0 0)
    (1 / 2) (1 / 2) hhalf hhalf radialSmall_lipschitz hB

/-- One correction step of the inverse iteration for the strong radial model
k1 = -1/2 against the target (1071/2000, 0), on the axis y = 0. -/
theorem strongRadial_step (u : ℝ) :
    corrStep (transform (.radial 1 (-(1 / 2) : ℝ) 0 0)) ((1071 : ℝ) / 2000, 0)
      (u, 0) = (1071 / 2000 + u ^ 3 / 2, 0) := by
  simp only [corrStep, residFun, transform, Prod.mk.injEq]
  constructor <;> ring

/-- All iterates of the strong-radial inverse iteration started at the
distorted image of (9/10, 0) stay on the axis and below 81/100: the
iteration converges towards the other branch of the folded forward map. -/
theorem strongRadial_iterates (k : ℕ) :
    0 ≤ ((corrStep (transform (.radial 1 (-(1 / 2) : ℝ) 0 0))
        ((1071 : ℝ) / 2000, 0))^[k] ((1071 : ℝ) / 2000, 0)).1 ∧
    ((corrStep (transform (.radial 1 (-(1 / 2) : ℝ) 0 0))
        ((1071 : ℝ) / 2000, 0))^[k] ((1071 : ℝ) / 2000, 0)).1 ≤ 81 / 100 ∧
    ((corrStep (transform (.radial 1 (-(1 / 2) : ℝ) 0 0))
        ((1071 : ℝ) / 2000, 0))^[k] ((1071 : ℝ) / 2000, 0)).2 = 0 := by
  induction k with
  | zero =>
      refine ⟨by norm_num, by norm_num, rfl⟩
  | succ k ih =>
      obtain ⟨h0, h1, h2⟩ := ih
      rw [Function.iterate_succ_apply']
      have he : (corrStep (transform (.radial 1 (-(1 / 2) : ℝ) 0 0))
          ((1071 : ℝ) / 2000, 0))^[k] ((1071 : ℝ) / 2000, 0) =
          (((corrStep (transform (.radial 1 (-(1 / 2) : ℝ) 0 0))
            ((1071 : ℝ) / 2000, 0))^[k] ((1071 : ℝ) / 2000, 0)).1, 0) := by
        rw [Prod.ext_iff]
        exact ⟨rfl, h2⟩
      rw [he, strongRadial_step]
      refine ⟨?_, ?_, rfl⟩
      · have : (0 : ℝ) ≤ (((corrStep (transform (.radial 1 (-(1 / 2) : ℝ) 0 0))
            ((1071 : ℝ) / 2000, 0))^[k] ((1071 : ℝ) / 2000, 0)).1) ^ 3 :=
          pow_nonneg h0 3
        simp only
        linarith
      · have hcube : (((corrStep (transform (.radial 1 (-(1 / 2) : ℝ) 0 0))
            ((1071 : ℝ) / 2000, 0))^[k] ((1071 : ℝ) / 2000, 0)).1) ^ 3 ≤
            (81 / 100 : ℝ) ^ 3 := pow_le_pow_left₀ h0 h1 3
        simp only
        nlinarith

/-- C2 counterexample: for the radial model with k1 = -1/2 (a magnitude
within commonly quoted calibration ranges) and the in-field-of-view point
(9/10, 0), the inverse of the forward image does not reproduce the point
within the tolerance: the fixed-point iteration converges to the other
branch of the folded forward map and stays below 81/100. -/
theorem roundtrip_fails_for_strong_radial :
    ¬ sdist (invTransform (.radial 1 (-(1 / 2) : ℝ) 0 0)
        (transform (.radial 1 (-(1 / 2) : ℝ) 0 0) ((9 : ℝ) / 10, 0)))
      ((9 : ℝ) / 10, 0) ≤ tol := by
  intro hcon
  have ht : transform (.radial 1 (-(1 / 2) : ℝ) 0 0) ((9 : ℝ) / 10, 0) =
      ((1071 : ℝ) / 2000, 0) := by
    simp only [transform, Prod.mk.injEq]
    norm_num
  rw [ht] at hcon
  unfold invTransform at hcon
  obtain ⟨k, _, heq⟩ := invIterAux_eq_iterate
    (transform (.radial 1 (-(1 / 2) : ℝ) 0 0)) ((1071 : ℝ) / 2000, 0)
    maxIter ((1071 : ℝ) / 2000, 0)
  rw [heq] at hcon
  obtain ⟨_, h1, _⟩ := strongRadial_iterates k
  have habs : (9 : ℝ) / 100 ≤
      |(((corrStep (transform (.radial 1 (-(1 / 2) : ℝ) 0 0))
        ((1071 : ℝ) / 2000, 0))^[k] ((1071 : ℝ) / 2000, 0)).1 - 9 / 10)| := by
    rw [abs_of_nonpos (by linarith)]
    linarith
  have hge : (9 : ℝ) / 100 ≤
      sdist ((corrStep (transform (.radial 1 (-(1 / 2) : ℝ) 0 0))
        ((1071 : ℝ) / 2000, 0))^[k] ((1071 : ℝ) / 2000, 0)) ((9 : ℝ) / 10, 0) :=
    le_trans habs (le_max_left _ _)
  have htol : tol = 1 / 1000000 := rfl
  rw [htol] at hcon
  linarith

/-- C6: away from the origin the equidistant forward transform computes the
incidence angle arctan r from the radius r of the ideal point, scales it by
the polynomial correction in its square built from the model's four
coefficients, and rescales the input direction from r to the distorted
radius, preserving the azimuthal direction (the output is the input scaled
by the nonnegative-direction factor rd / r componentwise). -/
theorem equidistant_transform_formula (e1 e2 e3 e4 x y : ℝ)
    (hr : 0 < Real.sqrt (x ^ 2 + y ^ 2)) :
    transform (.equidistant e1 e2 e3 e4) (x, y) =
      (x * ((Real.arctan (Real.sqrt (x ^ 2 + y ^ 2)) *
          (1 + e1 * Real.arctan (Real.sqrt (x ^ 2 + y ^ 2)) ^ 2 +
           e2 * Real.arctan (Real.sqrt (x ^ 2 + y ^ 2)) ^ 4 +
           e3 * Real.arctan (Real.sqrt (x ^ 2 + y ^ 2)) ^ 6 +
           e4 * Real.arctan (Real.sqrt (x ^ 2 + y ^ 2)) ^ 8)) /
          Real.sqrt (x ^ 2 + y ^ 2)),
       y * ((Real.arctan (Real.sqrt (x ^ 2 + y ^ 2)) *
          (1 + e1 * Real.arctan (Real.sqrt (x ^ 2 + y ^ 2)) ^ 2 +
           e2 * Real.arctan (Real.sqrt (x ^ 2 + y ^ 2)) ^ 4 +
           e3 * Real.arctan (Real.sqrt (x ^ 2 + y ^ 2)) ^ 6 +
           e4 * Real.arctan (Real.sqrt (x ^ 2 + y ^ 2)) ^ 8)) /
          Real.sqrt (x ^ 2 + y ^ 2))) := by
  simp only [transform]
  rw [if_pos hr]

/-- Witness for the equidistant formula theorem at zero coefficients and the
point (1, 0), whose radius is 1 > 0. -/
theorem equidistant_transform_formula_witness :
    0 < Real.sqrt ((1 : ℝ) ^ 2 + 0 ^ 2) ∧
    transform (.equidistant 0 0 0 0) ((1 : ℝ), 0) =
      (1 * ((Real.arctan (Real.sqrt ((1 : ℝ) ^ 2 + 0 ^ 2)) *
          (1 + 0 * Real.arctan (Real.sqrt ((1 : ℝ) ^ 2 + 0 ^ 2)) ^ 2 +
           0 * Real.arctan (Real.sqrt ((1 : ℝ) ^ 2 + 0 ^ 2)) ^ 4 +
           0 * Real.arctan (Real.sqrt ((1 : ℝ) ^ 2 + 0 ^ 2)) ^ 6 +
           0 * Real.arctan (Real.sqrt ((1 : ℝ) ^ 2 + 0 ^ 2)) ^ 8)) /
          Real.sqrt ((1 : ℝ) ^ 2 + 0 ^ 2)),
       0 * ((Real.arctan (Real.sqrt ((1 : ℝ) ^ 2 + 0 ^ 2)) *
          (1 + 0 * Real.arctan (Real.sqrt ((1 : ℝ) ^ 2 + 0 ^ 2)) ^ 2 +
           0 * Real.arctan (Real.sqrt ((1 : ℝ) ^ 2 + 0 ^ 2)) ^ 4 +
           0 * Real.arctan (Real.sqrt ((1 : ℝ) ^ 2 + 0 ^ 2)) ^ 6 +
           0 * Real.arctan (Real.sqrt ((1 : ℝ) ^ 2 + 0 ^ 2)) ^ 8)) /
          Real.sqrt ((1 : ℝ) ^ 2 + 0 ^ 2))) := by
  have hr : 0 < Real.sqrt ((1 : ℝ) ^ 2 + 0 ^ 2) := by
    rw [show ((1 : ℝ) ^ 2 + 0 ^ 2) = 1 by norm_num, Real.sqrt_one]
    norm_num
  exact ⟨hr, equidistant_transform_formula 0 0 0 0 1 0 hr⟩

/-- C8: an index outside 0 <= i < countParameter makes both getParameter and
setParameter fail with the bounds-violation error, for every variant; the
index is never clamped into range. -/
theorem parameter_access_out_of_bounds (m : Distortion) (i : ℤ) (v : ℝ)
    (h : i < 0 ∨ countParameter m ≤ i) :
    getParameter m i = .error .outOfBounds ∧
    setParameter m i v = .error .outOfBounds := by
  have hneg : ¬ (0 ≤ i ∧ i < countParameter m) := by
    rintro ⟨h1, h2⟩
    rcases h with h | h <;> omega
  constructor
  · unfold getParameter
    rw [if_neg hneg]
  · unfold setParameter
    rw [if_neg hneg]

/-- Witness for the out-of-bounds theorem: the order-1 radial model has one
parameter, so index 5 is rejected by both accessors. -/
theorem parameter_access_out_of_bounds_witness :
    ((5 : ℤ) < 0 ∨ countParameter (.radial 1 0 0 0) ≤ 5) ∧
    getParameter (.radial 1 0 0 0) 5 = .error .outOfBounds ∧
    setParameter (.radial 1 0 0 0) 5 7 = .error .outOfBounds := by
  have h : (5 : ℤ) < 0 ∨ countParameter (.radial 1 0 0 0) ≤ 5 := by
    right
    decide
  obtain ⟨hg, hs⟩ := parameter_access_out_of_bounds (.radial 1 0 0 0) 5 7 h
  exact ⟨h, hg, hs⟩

/-- External property-record collaborator: an ordered key/value store of
string-keyed numeric values. -/
abbrev Properties := List (String × ℝ)

/-- Presence test for a key. -/
def hasKey (ps : Properties) (k : String) : Bool :=
  ps.any (fun q => q.1 == k)

/-- Get-with-default access: an absent key yields the zero value rather than
a failure. -/
def getValue (ps : Properties) (k : String) : ℝ :=
  match ps.find? (fun q => q.1 == k) with
  | some q => q.2
  | none => 0

/-- Delete-by-key. -/
def delKey (ps : Properties) (k : String) : Properties :=
  ps.filter (fun q => !(q.1 == k))

/-- Set a key to a value, replacing any previous binding. -/
def setValue (ps : Properties) (k : String) (v : ℝ) : Properties :=
  delKey ps k ++ [(k, v)]

/-- Modelled from the spec: keys are namespaced by appending the numeric
camera id, with -1 the sentinel meaning no id (unnamed/global keys). -/
def propKey (k : String) (id : ℤ) : String :=
  if id = -1 then k else k ++ toString id

/-- Thin-prism distinguishing keys. -/
def tpKeys : List String := ["s1", "s2", "s3", "s4"]

/-- Rational-denominator distinguishing keys. -/
def ratKeys : List String := ["k4", "k5", "k6"]

/-- Tangential distinguishing keys. -/
def tanKeys : List String := ["p1", "p2"]

/-- Radial distinguishing keys. -/
def radKeys : List String := ["k1", "k2", "k3"]

/-- Equidistant coefficient keys (names not fixed by the spec). -/
def edKeys : List String := ["ed1", "ed2", "ed3", "ed4"]

/-- True when the store holds at least one of the given keys, id-suffixed. -/
def hasAny (ps : Properties) (id : ℤ) (keys : List String) : Bool :=
  keys.any (fun k => hasKey ps (propKey k id))

/-- Modelled from the spec: the radial order n is inferred by scanning for
the presence of the k1/k2/k3 keys. -/
def radialN (ps : Properties) (id : ℤ) : ℕ :=
  if hasKey ps (propKey ("k3") id) then 3
  else if hasKey ps (propKey ("k2") id) then 2
  else 1

/-- Modelled from the spec: the radial property-record constructor reads its
coefficients with zero defaults. -/
def radialFromProp (ps : Properties) (id : ℤ) : Distortion :=
  .radial (radialN ps id)
    (getValue ps (propKey ("k1") id))
    (getValue ps (propKey ("k2") id))
    (getValue ps (propKey ("k3") id))

/-- Modelled from the spec: the radial-tangential property-record
constructor. -/
def radialTangentialFromProp (ps : Properties) (id : ℤ) : Distortion :=
  .radialTangential (radialN ps id)
    (getValue ps (propKey ("p1") id))
    (getValue ps (propKey ("p2") id))
    (getValue ps (propKey ("k1") id))
    (getValue ps (propKey ("k2") id))
    (getValue ps (propKey ("k3") id))

/-- Modelled from the spec: the rational-tangential property-record
constructor. -/
def rationalTangentialFromProp (ps : Properties) (id : ℤ) : Distortion :=
  .rationalTangential
    (getValue ps (propKey ("p1") id))
    (getValue ps (propKey ("p2") id))
    (getValue ps (propKey ("k1") id))
    (getValue ps (propKey ("k2") id))
    (getValue ps (propKey ("k3") id))
    (getValue ps (propKey ("k4") id))
    (getValue ps (propKey ("k5") id))
    (getValue ps (propKey ("k6") id))

/-- Modelled from the spec: the thin-prism property-record constructor. -/
def thinPrismFromProp (ps : Properties) (id : ℤ) : Distortion :=
  .thinPrism
    (getValue ps (propKey ("p1") id))
    (getValue ps (propKey ("p2") id))
    (getValue ps (propKey ("k1") id))
    (getValue ps (propKey ("k2") id))
    (getValue ps (propKey ("k3") id))
    (getValue ps (propKey ("k4") id))
    (getValue ps (propKey ("k5") id))
    (getValue ps (propKey ("k6") id))
    (getValue ps (propKey ("s1") id))
    (getValue ps (propKey ("s2") id))
    (getValue ps (propKey ("s3") id))
    (getValue ps (propKey ("s4") id))

/-- Modelled from the spec: the equidistant property-record constructor. -/
def equidistantFromProp (ps : Properties) (id : ℤ) : Distortion :=
  .equidistant
    (getValue ps (propKey ("ed1") id))
    (getValue ps (propKey ("ed2") id))
    (getValue ps (propKey ("ed3") id))
    (getValue ps (propKey ("ed4") id))

/-- Modelled from the spec: the factory probes variant-distinguishing keys
in the precedence order thin-prism, rational-denominator, tangential,
radial-only, and falls back to the identity base model when none are
present. -/
def create (ps : Properties) (id : ℤ) : Distortion :=
  if hasAny ps id tpKeys then thinPrismFromProp ps id
  else if hasAny ps id ratKeys then rationalTangentialFromProp ps id
  else if hasAny ps id tanKeys then radialTangentialFromProp ps id
  else if hasAny ps id radKeys then radialFromProp ps id
  else .base

/-- Keys read by each variant's property-record constructor. -/
def keysOf : Distortion → List String
  | .base => []
  | .radial _ _ _ _ => radKeys
  | .radialTangential _ _ _ _ _ _ => tanKeys ++ radKeys
  | .rationalTangential _ _ _ _ _ _ _ _ => tanKeys ++ radKeys ++ ratKeys
  | .thinPrism _ _ _ _ _ _ _ _ _ _ _ _ => tanKeys ++ radKeys ++ ratKeys ++ tpKeys
  | .equidistant _ _ _ _ => edKeys

/-- Active parameters of a variant with their store key names, in order. -/
def paramKVs : Distortion → List (String × ℝ)
  | .base => []
  | .radial n a b c => (radKeys.zip [a, b, c]).take n
  | .radialTangential n p1 p2 a b c =>
      [("p1", p1), ("p2", p2)] ++ (radKeys.zip [a, b, c]).take n
  | .rationalTangential p1 p2 a b c d e f =>
      [("p1", p1), ("p2", p2), ("k1", a), ("k2", b), ("k3", c),
       ("k4", d), ("k5", e), ("k6", f)]
  | .thinPrism p1 p2 a b c d e f s1 s2 s3 s4 =>
      [("p1", p1), ("p2", p2), ("k1", a), ("k2", b), ("k3", c),
       ("k4", d), ("k5", e), ("k6", f),
       ("s1", s1), ("s2", s2), ("s3", s3), ("s4", s4)]
  | .equidistant a b c d =>
      [("ed1", a), ("ed2", b), ("ed3", c), ("ed4", d)]

/-- Modelled from the spec: getProperties writes each active parameter under
its id-suffixed key. -/
def getProperties (m : Distortion) (ps : Properties) (id : ℤ) : Properties :=
  (paramKVs m).foldl (fun a kv => setValue a (propKey kv.1 id) kv.2) ps

/-- Modelled from the spec: cleanProperties deletes exactly the keys the
variant's constructor would read. -/
def cleanProperties (m : Distortion) (ps : Properties) (id : ℤ) : Properties :=
  (keysOf m).foldl (fun a k => delKey a (propKey k id)) ps

/-- Union of every variant's keys. -/
def allModelKeys : List String :=
  tanKeys ++ radKeys ++ ratKeys ++ tpKeys ++ edKeys

/-- Modelled from the spec: cleanAllProperties deletes the union of all
variants' keys regardless of which is active. -/
def cleanAllProperties (ps : Properties) (id : ℤ) : Properties :=
  allModelKeys.foldl (fun a k => delKey a (propKey k id)) ps

/-- The "no id" sentinel used as declared default for every id argument in
gmath/distortion.h. -/
def noId : ℤ := -1

/-- Factory call with the id argument omitted. -/
def createDefault (ps : Properties) : Distortion := create ps noId

/-- cleanAllProperties with the id argument omitted. -/
def cleanAllPropertiesDefault (ps : Properties) : Properties :=
  cleanAllProperties ps noId

/-- getProperties with the id argument omitted. -/
def getPropertiesDefault (m : Distortion) (ps : Properties) : Properties :=
  getProperties m ps noId

/-- cleanProperties with the id argument omitted. -/
def cleanPropertiesDefault (m : Distortion) (ps : Properties) : Properties :=
  cleanProperties m ps noId

/-- Radial property constructor with the id argument omitted. -/
def radialFromPropDefault (ps : Properties) : Distortion :=
  radialFromProp ps noId

/-- Radial-tangential property constructor with the id argument omitted. -/
def radialTangentialFromPropDefault (ps : Properties) : Distortion :=
  radialTangentialFromProp ps noId

/-- Rational-tangential property constructor with the id argument omitted. -/
def rationalTangentialFromPropDefault (ps : Properties) : Distortion :=
  rationalTangentialFromProp ps noId

/-- Thin-prism property constructor with the id argument omitted. -/
def thinPrismFromPropDefault (ps : Properties) : Distortion :=
  thinPrismFromProp ps noId

/-- Equidistant property constructor with the id argument omitted. -/
def equidistantFromPropDefault (ps : Properties) : Distortion :=
  equidistantFromProp ps noId

/-- An absent key reads back as the zero value. -/
theorem getValue_of_not_hasKey (ps : Properties) (k : String)
    (h : hasKey ps k = false) : getValue ps k = 0 := by
  unfold getValue
  have hfind : ps.find? (fun q => q.1 == k) = none := by
    rw [List.find?_eq_none]
    intro q hq
    intro hqk
    have : ps.any (fun q => q.1 == k) = true :=
      List.any_eq_true.mpr ⟨q, hq, hqk⟩
    rw [hasKey] at h
    rw [h] at this
    exact Bool.false_ne_true this
  rw [hfind]

/-- C9: the factory probes variant-distinguishing keys in the precedence
order thin-prism, rational-denominator, tangential, radial-only, returning
the identity base model when none are present; and any key absent from the
store reads back as the zero value for whichever constructor runs. -/
theorem create_precedence (ps : Properties) (id : ℤ) :
    (hasAny ps id tpKeys = true → create ps id = thinPrismFromProp ps id) ∧
    (hasAny ps id tpKeys = false → hasAny ps id ratKeys = true →
      create ps id = rationalTangentialFromProp ps id) ∧
    (hasAny ps id tpKeys = false → hasAny ps id ratKeys = false →
      hasAny ps id tanKeys = true →
      create ps id = radialTangentialFromProp ps id) ∧
    (hasAny ps id tpKeys = false → hasAny ps id ratKeys = false →
      hasAny ps id tanKeys = false → hasAny ps id radKeys = true →
      create ps id = radialFromProp ps id) ∧
    (hasAny ps id tpKeys = false → hasAny ps id ratKeys = false →
      hasAny ps id tanKeys = false → hasAny ps id radKeys = false →
      create ps id = .base) ∧
    (∀ k, hasKey ps k = false → getValue ps k = 0) := by
  refine ⟨?_, ?_, ?_, ?_, ?_, fun k hk => getValue_of_not_hasKey ps k hk⟩
  · intro h1
    simp [create, h1]
  · intro h1 h2
    simp [create, h1, h2]
  · intro h1 h2 h3
    simp [create, h1, h2, h3]
  · intro h1 h2 h3 h4
    simp [create, h1, h2, h3, h4]
  · intro h1 h2 h3 h4
    simp [create, h1, h2, h3, h4]

/-- Witness for the factory-precedence theorem: one concrete store per
branch, plus an absent-key read, all obtained from the theorem with the
probe hypotheses evaluated. -/
theorem create_precedence_witness :
    create [(("s1" : String), (2 : ℝ))] (-1) =
      thinPrismFromProp [(("s1" : String), (2 : ℝ))] (-1) ∧
    create [(("k4" : String), (3 : ℝ))] (-1) =
      rationalTangentialFromProp [(("k4" : String), (3 : ℝ))] (-1) ∧
    create [(("p1" : String), (1 : ℝ))] (-1) =
      radialTangentialFromProp [(("p1" : String), (1 : ℝ))] (-1) ∧
    create [(("k2" : String), (1 : ℝ))] (-1) =
      radialFromProp [(("k2" : String), (1 : ℝ))] (-1) ∧
    create ([] : Properties) (-1) = .base ∧
    getValue [(("s1" : String), (2 : ℝ))] ("k1") = 0 := by
  refine ⟨?_, ?_, ?_, ?_, ?_, ?_⟩
  · exact (create_precedence _ _).1 (by decide)
  · exact (create_precedence _ _).2.1 (by decide) (by decide)
  · exact (create_precedence _ _).2.2.1 (by decide) (by decide) (by decide)
  · exact (create_precedence _ _).2.2.2.1 (by decide) (by decide) (by decide)
      (by decide)
  · exact (create_precedence _ _).2.2.2.2.1 (by decide) (by decide) (by decide)
      (by decide)
  · exact (create_precedence [(("s1" : String), (2 : ℝ))] (-1)).2.2.2.2.2
      ("k1") (by decide)

/-- C10: the "no id" sentinel is the concrete integer -1, it is the declared
default for every id argument (factory, cleanAllProperties, getProperties,
cleanProperties, and each variant's property-record constructor), so the
id-omitted call of each operation is identical to the call with id = -1;
the sentinel leaves keys unsuffixed. -/
theorem default_camera_id_sentinel :
    noId = -1 ∧
    (∀ k, propKey k noId = k) ∧
    (∀ ps, createDefault ps = create ps (-1)) ∧
    (∀ ps, cleanAllPropertiesDefault ps = cleanAllProperties ps (-1)) ∧
    (∀ m ps, getPropertiesDefault m ps = getProperties m ps (-1)) ∧
    (∀ m ps, cleanPropertiesDefault m ps = cleanProperties m ps (-1)) ∧
    (∀ ps, radialFromPropDefault ps = radialFromProp ps (-1)) ∧
    (∀ ps, radialTangentialFromPropDefault ps =
      radialTangentialFromProp ps (-1)) ∧
    (∀ ps, rationalTangentialFromPropDefault ps =
      rationalTangentialFromProp ps (-1)) ∧
    (∀ ps, thinPrismFromPropDefault ps = thinPrismFromProp ps (-1)) ∧
    (∀ ps, equidistantFromPropDefault ps = equidistantFromProp ps (-1)) := by
  refine ⟨rfl, fun k => by simp [propKey, noId], fun ps => rfl, fun ps => rfl,
    fun m ps => rfl, fun m ps => rfl, fun ps => rfl, fun ps => rfl,
    fun ps => rfl, fun ps => rfl, fun ps => rfl⟩

end Cvkit
